import Mathlib

/-!
# Verification of the Cypress migration utilities

A shallow embedding of the spec-file / configuration migration module
(`renameSpecPath`, `formatMigrationFile`, `reduceConfig`, `createConfigString`,
`getSpecs`, `moveSpecFiles`) with theorems about its behaviour.

Strings are modelled as Lean `String`/`List Char`.  JavaScript's
`String.prototype.replace` with a string pattern (first-occurrence literal
replacement) and the two concrete regular expressions used by the module are
modelled directly, with JS semantics: `.` in a pattern matches any character
except a line terminator, alternatives are tried left to right, the optional
quantifier `?` is greedy and backtracks.
-/

set_option maxRecDepth 8192

namespace CypressMigration

/-- JS regex `.` (and the `.*?` in the legacy pattern) matches any character
except a line terminator. -/
def isLineTerminator (c : Char) : Bool :=
  c = '\n' || c = '\r' || c = Char.ofNat 0x2028 || c = Char.ofNat 0x2029

/-- Leftmost occurrence of the literal pattern `pat` in a character list:
returns the characters before the occurrence and the characters after it.
Models the search done by `String.prototype.replace` with a string pattern. -/
def splitFirstOcc (pat : List Char) : List Char → Option (List Char × List Char)
  | [] => if pat.isPrefixOf ([] : List Char) then some ([], []) else none
  | c :: cs =>
    if pat.isPrefixOf (c :: cs) then some ([], (c :: cs).drop pat.length)
    else (splitFirstOcc pat cs).map (fun pr => (c :: pr.1, pr.2))

/-- Model of `s.replace(pat, repl)` for a string pattern `pat` and a replacement with no
`$`-patterns: replace the first occurrence of `pat`, if any. -/
def jsReplaceFirst (pat repl s : String) : String :=
  match splitFirstOcc pat.toList s.toList with
  | some (pre, post) => String.mk (pre ++ repl.toList ++ post)
  | none => s

/-- The core `[s|S]pec.` of the spec-suffix regex: one of `s`, `S`, `|`
(a character class `[s|S]` contains the literal `|`), then `pec`, then any
non-line-terminator character.  Returns the matched characters and the rest. -/
def matchSpecPart : List Char → Option (List Char × List Char)
  | c0 :: c1 :: c2 :: c3 :: c4 :: rest =>
    if (c0 = 's' || c0 = 'S' || c0 = '|') && c1 = 'p' && c2 = 'e' && c3 = 'c'
        && !isLineTerminator c4 then
      some ([c0, c1, c2, c3, c4], rest)
    else none
  | _ => none

/-- The lookahead `(?=[j|t]s[x]?)`: the next characters must be one of
`j`, `|`, `t` followed by `s` (the optional `[x]?` constrains nothing). -/
def lookaheadScriptExt : List Char → Bool
  | a :: b :: _ => (a = 'j' || a = '|' || a = 't') && b = 's'
  | _ => false

/-- Match the regex `([._-]?[s|S]pec.|[.])(?=[j|t]s[x]?)` at the current
position, with JS backtracking order: greedy `[._-]?` with the separator
first, then without it, then the `[.]` alternative; the lookahead is checked
after each candidate.  Returns the matched characters and the rest. -/
def matchSpecMarkerAt (cs : List Char) : Option (List Char × List Char) :=
  let withSep : Option (List Char × List Char) :=
    match cs with
    | c0 :: rest0 =>
      if c0 = '.' || c0 = '_' || c0 = '-' then
        match matchSpecPart rest0 with
        | some (m, rest) =>
          if lookaheadScriptExt rest then some (c0 :: m, rest) else none
        | none => none
      else none
    | [] => none
  match withSep with
  | some r => some r
  | none =>
    match matchSpecPart cs with
    | some (m, rest) =>
      if lookaheadScriptExt rest then some (m, rest) else none
    | none =>
      match cs with
      | '.' :: rest => if lookaheadScriptExt rest then some (['.'], rest) else none
      | _ => none

/-- Leftmost match of the spec-suffix regex in a character list: the
characters before the match, the match, and the characters after it. -/
def findSpecMarker : List Char → Option (List Char × List Char × List Char)
  | [] => none
  | c :: cs =>
    match matchSpecMarkerAt (c :: cs) with
    | some (m, rest) => some ([], m, rest)
    | none =>
      (findSpecMarker cs).map (fun pr => (c :: pr.1, pr.2.1, pr.2.2))

/-- Model of `renameSpecPath`: replace the first occurrence of `"integration"` with
`"e2e"`, then replace the first match of
`/([._-]?[s|S]pec.|[.])(?=[j|t]s[x]?)/` with `".cy."`. -/
def renameSpecPath (spec : String) : String :=
  let s1 := jsReplaceFirst "integration" "e2e" spec
  match findSpecMarker s1.toList with
  | some (pre, _, rest) => String.mk (pre ++ ".cy.".toList ++ rest)
  | none => s1

example : renameSpecPath "cypress/integration/foo.spec.js" = "cypress/e2e/foo.cy.js" := by decide
example : renameSpecPath "cypress/integration/foo_spec.ts" = "cypress/e2e/foo.cy.ts" := by decide
example : renameSpecPath "my-integration-tests" = "my-e2e-tests" := by decide
example : renameSpecPath "cypress/e2e/foo.cy.js" = "cypress/e2e/foo.cy.cy.js" := by decide

/-!
## The legacy highlight pattern and `formatMigrationFile`

`getLegacyHighlightRegexp(folder)` is
`cypress\/(?<dir>folder)\/.*?(?<ext>[._-]?[s|S]pec.|[.])(?=[j|t]s[x]?)`:
the literal `cypress/folder/`, a lazy `.*?`, and the same spec-suffix
alternation (here the named group `ext`) followed by the same lookahead as in
`renameSpecPath`.  `RegExp.exec` finds the match with the smallest start
position; the lazy `.*?` prefers the shortest extension.
-/

/-- Lazy `.*?` followed by the spec-suffix group and lookahead: try the group
at the current position first, then extend the lazy star one (non-line-
terminator) character at a time.  Returns the characters consumed by `.*?`,
the `ext` group, and the rest. -/
def matchLazyThenMarker : List Char → Option (List Char × List Char × List Char)
  | [] =>
    (matchSpecMarkerAt []).map (fun p => (([] : List Char), p.1, p.2))
  | c :: cs =>
    match matchSpecMarkerAt (c :: cs) with
    | some (m, rest) => some ([], m, rest)
    | none =>
      if isLineTerminator c then none
      else (matchLazyThenMarker cs).map (fun pr => (c :: pr.1, pr.2.1, pr.2.2))

/-- The literal head `cypress/<folder>/` of the legacy pattern. -/
def legacyHead (folder : String) : List Char := ("cypress/" ++ folder ++ "/").toList

/-- Match the legacy pattern at the current position; on success return the
value of the `ext` capture group. -/
def legacyMatchAt (folder : String) (cs : List Char) : Option (List Char) :=
  if (legacyHead folder).isPrefixOf cs then
    (matchLazyThenMarker (cs.drop (legacyHead folder).length)).map (fun pr => pr.2.1)
  else none

/-- Leftmost match of the legacy pattern (`RegExp.exec`); returns the `ext`
capture group value of the first match. -/
def findLegacyMatch (folder : String) : List Char → Option (List Char)
  | [] => legacyMatchAt folder []
  | c :: cs =>
    match legacyMatchAt folder (c :: cs) with
    | some e => some e
    | none => findLegacyMatch folder cs

/-- Model of `regexps[...].beforeRegexp.exec(file)`, abstracted to what
`formatMigrationFile` consumes: `none` models a failed match, and on success
the named-group values in definition order (`dir` always captures the folder
name, `ext` the spec-suffix match). -/
def legacyExec (folder : String) (file : String) : Option (Option (List String)) :=
  (findLegacyMatch folder file.toList).map (fun ext => some [folder, String.mk ext])

example : legacyExec "integration" "cypress/integration/foo.spec.js"
    = some (some ["integration", ".spec."]) := by decide
example : legacyExec "integration" "cypress/e2e/foo.cy.js" = none := by decide

/-!
### `String.prototype.split` with a capturing separator

`formatMigrationFile` splits the file on `new RegExp("(" + delimiters + ")")`
where `delimiters` is the `|`-join of the captured group values longer than
one character.  Whether that constructed source is accepted by the `RegExp`
constructor at all — it throws a SyntaxError on, e.g., an unmatched
parenthesis contributed by a captured value — is modelled by
`validRegexSource` below.  Since the whole pattern is one capture group, the
ES `String.prototype.split` algorithm interleaves the text between matches
with the matched separators themselves.  An accepted pattern is interpreted
with JS regex semantics for the characters the captured values normally
contain: `|` separates alternatives (tried left to right) and `.` matches
any non-line-terminator character; remaining characters are treated as
literals (quantifiers or anchors that a captured value could contribute to
a still-valid pattern are not interpreted).
-/

/-- Match one alternative (a pattern with `.` wildcards) at the start of the
input; returns the number of characters consumed. -/
def altMatchLen : List Char → List Char → Option Nat
  | [], _ => some 0
  | _ :: _, [] => none
  | p :: ps, c :: cs =>
    if p = '.' then
      if isLineTerminator c then none else (altMatchLen ps cs).map (· + 1)
    else if p = c then (altMatchLen ps cs).map (· + 1)
    else none

/-- Match an ordered alternation at the start of the input (first alternative
that matches wins), returning the number of characters consumed. -/
def altsMatchLen (alts : List (List Char)) (cs : List Char) : Option Nat :=
  match alts with
  | [] => none
  | a :: rest =>
    match altMatchLen a cs with
    | some n => some n
    | none => altsMatchLen rest cs

/-- The loop of the ES `String.prototype.split` algorithm for a separator
regex that is a single capture group spanning the whole pattern.  `seg` holds
the (reversed) characters of the current segment; a match found at the
current position emits the segment and the matched separator.  An empty match
at the start of the current segment does not split (the algorithm advances
instead).  The fuel always suffices (`length + 1`); the fuel-exhausted branch
preserves the concatenation of the remaining input. -/
def splitLoopF : Nat → (List Char → Option Nat) → List Char → List Char → List (List Char)
  | 0, _, seg, rest => [seg.reverse ++ rest]
  | _ + 1, _, seg, [] => [seg.reverse]
  | fuel + 1, f, seg, c :: rest =>
    match f (c :: rest) with
    | none => splitLoopF fuel f (c :: seg) rest
    | some 0 =>
      match seg with
      | [] => splitLoopF fuel f [c] rest
      | _ :: _ => seg.reverse :: [] :: splitLoopF fuel f [c] rest
    | some (n + 1) =>
      seg.reverse :: (c :: rest).take (n + 1) :: splitLoopF fuel f [] ((c :: rest).drop (n + 1))

/-- Model of `file.split(re)` for a separator regex `re` that is one capture group
spanning the whole pattern, given as an anchored matcher returning the match
length.  An empty input is the ES special case: `[]` if the separator matches
the empty string, `[""]` otherwise. -/
def jsSplitOnGroup (f : List Char → Option Nat) (cs : List Char) : List (List Char) :=
  match cs with
  | [] => if (f []).isSome then [] else [[]]
  | _ :: _ => splitLoopF (cs.length + 1) f [] cs

/-- Split a character list on a separator character (used to read the
alternatives out of the constructed `(${delimiters})` pattern, whose
top-level `|`s separate alternatives). -/
def splitOnChar (sep : Char) : List Char → List (List Char)
  | [] => [[]]
  | c :: cs =>
    if c = sep then [] :: splitOnChar sep cs
    else
      match splitOnChar sep cs with
      | [] => [[c]]
      | h :: t => (c :: h) :: t

/-- Scanner deciding whether a regex source is accepted by the JS `RegExp`
constructor (no flags, Annex B web grammar), for the constructs reachable in
a constructed `(${delimiters})` pattern: group balance (`(` must be closed,
`)` must have an open group), character classes (`[` must be terminated by
an unescaped `]`; `[]` is the empty class), escapes (`\` consumes the next
character and is invalid at the end), and quantifier placement (`*`, `+`,
`?` need a preceding term; one `?` may follow a quantifier as its lazy
marker).  Lone `{`, `}`, `]` and the anchors are literal/quantifiable terms
per the web grammar.  Arguments: remaining characters, open-group depth,
quantifier state (0 = nothing to repeat, 1 = after a term, 2 = after a
quantifier, lazy `?` allowed), inside-class flag. -/
def scanRegexAux : List Char → Nat → Nat → Bool → Bool
  | [], depth, _, inClass => !inClass && depth == 0
  | c :: rest, depth, qs, inClass =>
    if inClass then
      if c = '\\' then
        match rest with
        | [] => false
        | _ :: rest2 => scanRegexAux rest2 depth qs true
      else if c = ']' then scanRegexAux rest depth 1 false
      else scanRegexAux rest depth qs true
    else if c = '\\' then
      match rest with
      | [] => false
      | _ :: rest2 => scanRegexAux rest2 depth 1 false
    else if c = '[' then scanRegexAux rest depth qs true
    else if c = '(' then scanRegexAux rest (depth + 1) 0 false
    else if c = ')' then
      match depth with
      | 0 => false
      | d + 1 => scanRegexAux rest d 1 false
    else if c = '*' || c = '+' then
      if qs = 1 then scanRegexAux rest depth 2 false else false
    else if c = '?' then
      if qs = 1 then scanRegexAux rest depth 2 false
      else if qs = 2 then scanRegexAux rest depth 0 false
      else false
    else if c = '|' then scanRegexAux rest depth 0 false
    else scanRegexAux rest depth 1 false

/-- Whether `new RegExp(s)` succeeds (`true`) or throws a SyntaxError
(`false`). -/
def validRegexSource (s : String) : Bool := scanRegexAux s.toList 0 0 false

example : validRegexSource "(integration|.spec.)" = true := by decide
example : validRegexSource "(integration|.spec))" = false := by decide
example : validRegexSource "(integration|.spec()" = false := by decide
example : validRegexSource "(integration|.spec[)" = false := by decide
example : validRegexSource "(integration|.spec*)" = true := by decide

/-- A fragment of the file path: the text and whether it was one of the
captured (highlighted) values. -/
structure FilePart where
  text : String
  highlight : Bool
deriving DecidableEq, Repr

/-- The error thrown when a path does not match the expected spec-file
pattern.  The source message also interpolates the regex's text; the
embedding abstracts the pattern, so only the file is carried. -/
structure NonSpecFileError where
  message : String
deriving DecidableEq, Repr

/-- The `NonSpecFileError` message for a file. -/
def nonSpecMessage (file : String) : String :=
  "Expected groups dir and ext in " ++ file ++
    ". Perhaps this is not a spec file, or it is an unexpected format?"

/-- What `formatMigrationFile` can throw: its own `NonSpecFileError` when
the pattern does not match or the match lacks named groups, or the
SyntaxError raised by `new RegExp` when the split pattern constructed from
the captured values is not a valid regex (the `ext` group's trailing
wildcard can capture a metacharacter such as an unmatched parenthesis). -/
inductive MigrationThrow where
  | nonSpecFile (err : NonSpecFileError)
  | invalidRegex (pattern : String)
deriving DecidableEq, Repr

/-- Model of `formatMigrationFile(file, regexp)`, parameterized over the abstracted
`regexp.exec`: `exec file = none` models no match, `some none` a match whose
`groups` object is `undefined` (a regex without named groups), and
`some (some gs)` a match with named-group values `gs` in definition order.
On a match with groups: keep the group values longer than one character,
join them with `|`, build the split regex `(${delimiters})` — the
constructor throws a SyntaxError when that source is invalid — then split
the file on the alternation (as one capture group) and tag each fragment
with whether it equals a kept value. -/
def formatMigrationFile (exec : String → Option (Option (List String)))
    (file : String) : Except MigrationThrow (List FilePart) :=
  match exec file with
  | none => .error (.nonSpecFile ⟨nonSpecMessage file⟩)
  | some none => .error (.nonSpecFile ⟨nonSpecMessage file⟩)
  | some (some groupValues) =>
    let higlights := groupValues.filter (fun x => x.length > 1)
    let delimiters := String.intercalate "|" higlights
    let pattern := "(" ++ delimiters ++ ")"
    if validRegexSource pattern then
      let alts := splitOnChar '|' delimiters.toList
      let split := jsSplitOnGroup (altsMatchLen alts) file.toList
      .ok (split.map (fun t =>
        { text := String.mk t, highlight := higlights.contains (String.mk t) }))
    else .error (.invalidRegex pattern)

deriving instance DecidableEq for Except

example : formatMigrationFile (legacyExec "integration") "cypress/integration/foo.spec.js"
    = .ok [⟨"cypress/", false⟩, ⟨"integration", true⟩, ⟨"/foo", false⟩,
           ⟨".spec.", true⟩, ⟨"js", false⟩] := by decide

/-!
## The configuration migrator

A JS configuration object is an insertion-ordered association list from
option names to values.  `Object.entries` iterates in that order; an object
literal `{ ...a, k: v }` keeps the position of an existing key and appends a
new one.  (JS additionally fronts integer-like keys; configuration keys are
never integer-like, so plain insertion order is faithful.)
-/

/-- A JavaScript value as far as the config migrator observes it. -/
inductive JsVal where
  | str (s : String)
  | boolean (b : Bool)
  | num (n : Int)
  | null
  | undef
  | obj (fields : List (String × JsVal))

/-- A JS object: an insertion-ordered association list. -/
abbrev JsObj := List (String × JsVal)

/-- Set a property: overwrite in place if the key exists, append otherwise
(JS object-literal semantics). -/
def setKey (o : JsObj) (k : String) (v : JsVal) : JsObj :=
  if o.any (fun p => p.1 = k) then o.map (fun p => if p.1 = k then (k, v) else p)
  else o ++ [(k, v)]

/-- Spread merge `{ ...a, ...b }`: spread `b`'s properties over `a` in order. -/
def mergeObj (a b : JsObj) : JsObj :=
  b.foldl (fun acc p => setKey acc p.1 p.2) a

/-- Property lookup. -/
def getKey (o : JsObj) (k : String) : Option JsVal :=
  (o.find? (fun p => p.1 = k)).map (fun p => p.2)

/-- The keys of an object, in order. -/
def keysOf (o : JsObj) : List String := o.map Prod.fst

/-- Spreading a value into an object literal (`{ ...value }`): objects
contribute their fields, strings their indexed characters, primitives
nothing. -/
def jsSpread : JsVal → JsObj
  | .obj fields => fields
  | .str s => s.toList.enum.map (fun p => (toString p.1, JsVal.str (String.singleton p.2)))
  | _ => []

/-- The three buckets built by `reduceConfig`. -/
structure ConfigOptions where
  global : JsObj
  e2e : JsObj
  component : JsObj

/-- The keys dropped entirely by `reduceConfig`. -/
def excludedFields : List String := ["pluginsFile", "$schema", "componentFolder"]

/-- One step of the `Object.entries(cfg).reduce` in `reduceConfig`. -/
def reduceStep (acc : ConfigOptions) (entry : String × JsVal) : ConfigOptions :=
  if entry.1 ∈ excludedFields then acc
  else if entry.1 = "e2e" then { acc with e2e := mergeObj acc.e2e (jsSpread entry.2) }
  else if entry.1 = "component" then
    { acc with component := mergeObj acc.component (jsSpread entry.2) }
  else if entry.1 = "testFiles" then
    { acc with e2e := setKey acc.e2e "specPattern" entry.2,
               component := setKey acc.component "specPattern" entry.2 }
  else if entry.1 = "baseUrl" then { acc with e2e := setKey acc.e2e "baseUrl" entry.2 }
  else { acc with global := setKey acc.global entry.1 entry.2 }

/-- Model of `reduceConfig`: fold the entries into the three buckets, starting from
`{ global: {}, e2e: {}, component: {} }`. -/
def reduceConfig (cfg : JsObj) : ConfigOptions :=
  cfg.foldl reduceStep ⟨[], [], []⟩

/-- JS string conversion of a value interpolated into a template string. -/
def jsToString : JsVal → String
  | .str s => s
  | .boolean b => cond b "true" "false"
  | .num n => toString n
  | .null => "null"
  | .undef => "undefined"
  | .obj _ => "[object Object]"

/-- JS truthiness of a value. -/
def truthy : JsVal → Bool
  | .str s => s ≠ ""
  | .boolean b => b
  | .num n => n ≠ 0
  | .null => false
  | .undef => false
  | .obj _ => true

/-- The value of `path.normalize('/cypress/plugins/index.js')` on a POSIX system is the
string itself (it is already normalized). -/
def DEFAULT_PLUGIN_PATH : String := "/cypress/plugins/index.js"

/-- Model of `getPluginRelativePath`: `cfg.pluginsFile ? cfg.pluginsFile :
DEFAULT_PLUGIN_PATH` — the `pluginsFile` value when it is truthy, the default
path otherwise (including when the key is absent). -/
def getPluginRelativePath (cfg : JsObj) : String :=
  match getKey cfg "pluginsFile" with
  | some v => if truthy v then jsToString v else DEFAULT_PLUGIN_PATH
  | none => DEFAULT_PLUGIN_PATH

/-!
`formatObjectForConfig` serializes a bucket with the external
`stringify-object` library, strips the outer braces and trims; the embedding
parameterizes the renderer over that composite serializer
(`formatObject : JsObj → Nat → String`, taking the indent width).
Literal braces and quotes in the emitted template are written with `\x7b`,
`\x7d` and `\x27` escapes.
-/

/-- The `setupNodeEvents` hook text requiring a plugin path — the middle of
the `createTestingTypeTemplate` template literal. -/
def setupHookText (pluginPath : String) : String :=
  "setupNodeEvents(on, config) \x7b\n      return require(\x27" ++ pluginPath ++ "\x27)"

/-- Model of `createTestingTypeTemplate(testingType, pluginPath, options)`; the
template literal is written as the concatenation of its fixed pieces, with
the `setupNodeEvents` hook factored out as `setupHookText`. -/
def createTestingTypeTemplate (formatObject : JsObj → Nat → String)
    (testingType pluginPath : String) (options : JsObj) : String :=
  "\n  " ++ testingType ++ ": \x7b\n    " ++ setupHookText pluginPath
    ++ "\n    \x7d,\n    " ++ formatObject options 4 ++ "\n  \x7d,"

/-- The `globalString` of `createCypressConfigJs`: empty when the global
bucket has no keys. -/
def globalSection (formatObject : JsObj → Nat → String) (config : ConfigOptions) : String :=
  if config.global.length > 0 then "\n" ++ formatObject config.global 2 ++ "," else ""

/-- The `e2eString` / `componentString` of `createCypressConfigJs`: empty
when the bucket has no keys, the testing-type template otherwise. -/
def typeSection (formatObject : JsObj → Nat → String)
    (testingType pluginPath : String) (options : JsObj) : String :=
  if options.length > 0 then
    createTestingTypeTemplate formatObject testingType pluginPath options
  else ""

/-- The fixed head of the emitted module. -/
def configHeader : String :=
  "const \x7b defineConfig \x7d = require(\x27cypress\x27)\n\nmodule.exports = defineConfig(\x7b"

/-- The fixed tail of the emitted module. -/
def configFooter : String := "\n\x7d)"

/-- Model of `createCypressConfigJs(config, pluginPath)`: header, global options, the
`e2e` block, the `component` block, footer — in that order. -/
def createCypressConfigJs (formatObject : JsObj → Nat → String)
    (config : ConfigOptions) (pluginPath : String) : String :=
  configHeader ++ globalSection formatObject config
    ++ typeSection formatObject "e2e" pluginPath config.e2e
    ++ typeSection formatObject "component" pluginPath config.component
    ++ configFooter

/-- Model of `createConfigString(cfg)`. -/
def createConfigString (formatObject : JsObj → Nat → String) (cfg : JsObj) : String :=
  createCypressConfigJs formatObject (reduceConfig cfg) (getPluginRelativePath cfg)

/-- Substring containment (via the underlying character lists); decidable,
so concrete instances can be settled by `decide`. -/
def StrContains (s t : String) : Prop := t.toList <:+: s.toList

instance (s t : String) : Decidable (StrContains s t) :=
  List.decidableInfix t.toList s.toList

/-!
## Spec discovery (`getSpecs`) and the on-disk move (`moveSpecFiles`)
-/

/-- The two testing types (from `@packages/types`). -/
inductive TestingType where
  | e2e
  | component
deriving DecidableEq, Repr

/-- A relative spec path tagged with its testing type. -/
structure RelativeSpecWithTestingType where
  testingType : TestingType
  relative : String
deriving DecidableEq, Repr

/-- Model of `findByTestingType`: nothing for a falsy directory (null or empty
string); otherwise the files listed by the external `globby` — abstracted as
`listFiles cwd pattern` — tagged with the testing type. -/
def findByTestingType (listFiles : String → String → List String)
    (cwd : String) (dir : Option String) (testingType : TestingType) :
    List RelativeSpecWithTestingType :=
  match dir with
  | none => []
  | some d =>
    if d = "" then []
    else (listFiles cwd (d ++ "/**/*")).map (fun r => ⟨testingType, r⟩)

/-- The result of `getSpecs`. -/
structure SpecsBeforeAfter where
  before : List RelativeSpecWithTestingType
  after : List RelativeSpecWithTestingType
deriving DecidableEq, Repr

/-- Model of `getSpecs`: the component listing followed by the e2e listing, and the
same sequence with every relative path renamed by `renameSpecPath`. -/
def getSpecs (listFiles : String → String → List String) (projectRoot : String)
    (componentDirPath e2eDirPath : Option String) : SpecsBeforeAfter :=
  let comp := findByTestingType listFiles projectRoot componentDirPath .component
  let e2e := findByTestingType listFiles projectRoot e2eDirPath .e2e
  ⟨comp ++ e2e,
   (comp ++ e2e).map (fun x => ⟨x.testingType, renameSpecPath x.relative⟩)⟩

/-- The filesystem as a flat map from paths to file contents. -/
def Fs := String → Option String

/-- The failures of `fs-extra`'s `moveSync`: missing source, or existing
destination (overwriting is not enabled; moving a path onto itself also
fails this way since the source exists). -/
inductive FsError where
  | sourceMissing (src : String)
  | destExists (dest : String)
deriving DecidableEq, Repr

/-- Model of `fs.moveSync(src, dest)` on the flat filesystem. -/
def moveSync (fs : Fs) (src dest : String) : Except FsError Fs :=
  match fs src with
  | none => .error (.sourceMissing src)
  | some content =>
    match fs dest with
    | some _ => .error (.destExists dest)
    | none => .ok (fun p => if p = dest then some content else if p = src then none else fs p)

/-- The `specs.forEach` loop of `moveSpecFiles`: perform the moves one at a
time, in order; stop at the first failure and return the filesystem as it
was at that point together with the error. -/
def runMoves (fs : Fs) : List (String × String) → Fs × Option FsError
  | [] => (fs, none)
  | (s, d) :: rest =>
    match moveSync fs s d with
    | .ok fs' => runMoves fs' rest
    | .error e => (fs, some e)

/-- Model of `path.join(dirPath, file)` (and the template `` `${dir}/${file}` ``) for
a normalized directory and a plain file name. -/
def pathJoin (dir file : String) : String := dir ++ "/" ++ file

/-- Model of `getSpecFiles(dirPath)`: the entries of the directory listing (`names`,
in `fs.readdir` order) that are regular files — in the flat-map model, the
paths present in the filesystem. -/
def getSpecFiles (fs : Fs) (dirPath : String) (names : List String) : List String :=
  names.filter (fun n => (fs (pathJoin dirPath n)).isSome)

/-- The from/to pairs computed by `moveSpecFiles` for the listed files. -/
def specMoves (e2eDirPath : String) (files : List String) : List (String × String) :=
  files.map (fun f => (pathJoin e2eDirPath f, renameSpecPath (pathJoin e2eDirPath f)))

/-- The move plan of `moveSpecFiles` on a filesystem and directory listing. -/
def plannedMoves (fs : Fs) (e2eDirPath : String) (names : List String) :
    List (String × String) :=
  specMoves e2eDirPath (getSpecFiles fs e2eDirPath names)

/-- Model of `moveSpecFiles(e2eDirPath)` given the directory listing `names`. -/
def moveSpecFiles (fs : Fs) (e2eDirPath : String) (names : List String) :
    Fs × Option FsError :=
  runMoves fs (plannedMoves fs e2eDirPath names)

/-- The literal pattern `pat` occurs in `s` at position `i`. -/
def OccursAt (pat s : List Char) (i : Nat) : Prop :=
  pat.isPrefixOf (s.drop i) = true

instance (pat s : List Char) (i : Nat) : Decidable (OccursAt pat s i) :=
  inferInstanceAs (Decidable (_ = true))

/-!
## Theorems

### The path renaming rule (`renameSpecPath`)
-/

lemma splitFirstOcc_eq_none (pat : List Char) :
    ∀ cs, splitFirstOcc pat cs = none → ∀ i, ¬ OccursAt pat cs i := by
  intro cs
  induction cs with
  | nil =>
    intro h i
    simp only [splitFirstOcc] at h
    intro hocc
    rw [OccursAt, List.drop_nil] at hocc
    rw [hocc] at h
    simp at h
  | cons c cs ih =>
    intro h i
    simp only [splitFirstOcc] at h
    by_cases hp : pat.isPrefixOf (c :: cs) = true
    · rw [if_pos hp] at h; exact absurd h (by simp)
    · rw [if_neg hp] at h
      match i with
      | 0 => exact fun hocc => hp hocc
      | i + 1 =>
        have hnone : splitFirstOcc pat cs = none := by
          cases hsp : splitFirstOcc pat cs with
          | none => rfl
          | some pr => rw [hsp] at h; simp at h
        exact ih hnone i

lemma splitFirstOcc_eq_some (pat : List Char) :
    ∀ cs pre post, splitFirstOcc pat cs = some (pre, post) →
      cs = pre ++ pat ++ post ∧ ∀ j, j < pre.length → ¬ OccursAt pat cs j := by
  intro cs
  induction cs with
  | nil =>
    intro pre post h
    simp only [splitFirstOcc] at h
    by_cases hp : pat.isPrefixOf ([] : List Char) = true
    · rw [if_pos hp] at h
      have hpat : pat = [] := by
        have := List.isPrefixOf_iff_prefix.mp hp
        simpa using this
      simp only [Option.some.injEq, Prod.mk.injEq] at h
      obtain ⟨h1, h2⟩ := h
      subst h1; subst h2
      simp [hpat]
    · rw [if_neg hp] at h; exact absurd h (by simp)
  | cons c cs ih =>
    intro pre post h
    simp only [splitFirstOcc] at h
    by_cases hp : pat.isPrefixOf (c :: cs) = true
    · rw [if_pos hp] at h
      simp only [Option.some.injEq, Prod.mk.injEq] at h
      obtain ⟨h1, h2⟩ := h
      subst h1; subst h2
      refine ⟨?_, fun j hj => absurd hj (by simp)⟩
      obtain ⟨t, ht⟩ := List.isPrefixOf_iff_prefix.mp hp
      have hdrop : List.drop pat.length (c :: cs) = t := by
        rw [← ht]; exact List.drop_left pat t
      rw [List.nil_append, hdrop, ht]
    · rw [if_neg hp] at h
      cases hsp : splitFirstOcc pat cs with
      | none => rw [hsp] at h; simp at h
      | some pr =>
        obtain ⟨p1, p2⟩ := pr
        rw [hsp] at h
        injection h with h'
        injection h' with h1 h2
        subst h1; subst h2
        obtain ⟨heq, hmin⟩ := ih p1 p2 hsp
        constructor
        · simp only [List.cons_append, List.append_assoc] at heq ⊢
          rw [← heq]
        · intro j hj
          match j with
          | 0 => exact fun hocc => hp hocc
          | j + 1 =>
            simp only [List.length_cons, Nat.add_lt_add_iff_right] at hj
            exact fun hocc => hmin j hj hocc

lemma splitFirstOcc_some_occurs (pat : List Char) (cs pre post : List Char)
    (h : splitFirstOcc pat cs = some (pre, post)) : OccursAt pat cs pre.length := by
  obtain ⟨heq, -⟩ := splitFirstOcc_eq_some pat cs pre post h
  rw [OccursAt, heq, List.append_assoc, List.drop_left]
  exact List.isPrefixOf_iff_prefix.mpr ⟨post, rfl⟩

/-- Claim C2 (amended): the first rewrite of `renameSpecPath` replaces the
first occurrence of the substring `"integration"` anywhere in the path — it
is not restricted to whole path segments — and only that first occurrence:
a path with no occurrence is unchanged, and a path whose leftmost occurrence
is at position `i` has exactly the eleven characters at `i` replaced by
`"e2e"`. -/
theorem jsReplaceFirst_integration_leftmost :
    (∀ s : String, (∀ i, ¬ OccursAt "integration".toList s.toList i) →
      jsReplaceFirst "integration" "e2e" s = s) ∧
    (∀ s : String, ∀ i, OccursAt "integration".toList s.toList i →
      (∀ j, j < i → ¬ OccursAt "integration".toList s.toList j) →
      jsReplaceFirst "integration" "e2e" s =
        String.mk (s.toList.take i ++ "e2e".toList ++ s.toList.drop (i + 11))) := by
  constructor
  · intro s hno
    rw [jsReplaceFirst]
    cases hsp : splitFirstOcc "integration".toList s.toList with
    | none => rfl
    | some pr =>
      exact absurd (splitFirstOcc_some_occurs _ _ _ _ hsp) (hno pr.1.length)
  · intro s i hocc hmin
    rw [jsReplaceFirst]
    cases hsp : splitFirstOcc "integration".toList s.toList with
    | none => exact absurd hocc (splitFirstOcc_eq_none _ _ hsp i)
    | some pr =>
      obtain ⟨pre, post⟩ := pr
      obtain ⟨heq, hnobefore⟩ := splitFirstOcc_eq_some _ _ pre post hsp
      have hat : OccursAt "integration".toList s.toList pre.length :=
        splitFirstOcc_some_occurs _ _ _ _ hsp
      have hlen : pre.length = i := by
        rcases Nat.lt_trichotomy pre.length i with hlt | heqi | hgt
        · exact absurd hat (hmin _ hlt)
        · exact heqi
        · exact absurd hocc (hnobefore i hgt)
      have hpre : pre = s.toList.take i := by
        rw [heq, List.append_assoc, List.take_left' hlen]
      have hpost : post = s.toList.drop (i + 11) := by
        have hlen2 : (pre ++ "integration".toList).length = i + 11 := by
          rw [List.length_append, hlen]
          rfl
        rw [heq]
        exact (List.drop_left' hlen2).symm
      rw [hpre, hpost]

/-- Claim C2 counterexample: the first rewrite replaces `"integration"` even
where it is only a substring of a path segment, so
`"my-integration-tests"` is not left unchanged by that rule. -/
theorem renameSpecPath_segment_rule_counterexample :
    jsReplaceFirst "integration" "e2e" "my-integration-tests" = "my-e2e-tests" ∧
    renameSpecPath "my-integration-tests" = "my-e2e-tests" ∧
    "my-e2e-tests" ≠ "my-integration-tests" := by
  refine ⟨by decide, by decide, by decide⟩

/-- Claim C2 (amended) witness at a concrete input: the leftmost occurrence
of `"integration"` in `"my-integration-tests"` is at position 3 and the
rewrite replaces exactly it. -/
theorem jsReplaceFirst_integration_leftmost_witness :
    jsReplaceFirst "integration" "e2e" "my-integration-tests" = "my-e2e-tests" := by
  have h := jsReplaceFirst_integration_leftmost.2 "my-integration-tests" 3
    (by decide) (by decide)
  exact h.trans (by decide)

/-!
### `formatMigrationFile` splits reconstruct the input (C3)
-/

lemma flatten_splitLoopF (f : List Char → Option Nat) :
    ∀ fuel seg rest, (splitLoopF fuel f seg rest).flatten = seg.reverse ++ rest := by
  intro fuel
  induction fuel with
  | zero => intro seg rest; simp [splitLoopF]
  | succ fuel ih =>
    intro seg rest
    cases rest with
    | nil => simp [splitLoopF]
    | cons c rest =>
      cases hf : f (c :: rest) with
      | none =>
        simp only [splitLoopF, hf]
        rw [ih]
        simp
      | some n =>
        cases n with
        | zero =>
          cases seg with
          | nil =>
            simp only [splitLoopF, hf]
            rw [ih]
            simp
          | cons a seg' =>
            simp only [splitLoopF, hf, List.flatten_cons]
            rw [ih]
            simp
        | succ n =>
          simp only [splitLoopF, hf, List.flatten_cons]
          rw [ih]
          simp [List.take_append_drop]

lemma flatten_jsSplitOnGroup (f : List Char → Option Nat) (cs : List Char) :
    (jsSplitOnGroup f cs).flatten = cs := by
  cases cs with
  | nil =>
    rw [jsSplitOnGroup]
    cases hf : (f []).isSome <;> simp [hf]
  | cons c cs =>
    rw [jsSplitOnGroup, flatten_splitLoopF]
    simp

lemma string_foldl_append_mk :
    ∀ (l : List (List Char)) (acc : List Char),
      List.foldl (· ++ ·) (String.mk acc) (l.map String.mk) = String.mk (acc ++ l.flatten) := by
  intro l
  induction l with
  | nil => intro acc; simp
  | cons h t ih =>
    intro acc
    simp only [List.map_cons, List.foldl_cons]
    rw [show String.mk acc ++ String.mk h = String.mk (acc ++ h) from rfl, ih]
    simp

lemma string_join_map_mk (l : List (List Char)) :
    String.join (l.map String.mk) = String.mk l.flatten := by
  have h := string_foldl_append_mk l []
  simpa [String.join] using h

lemma string_mk_toList (s : String) : String.mk s.toList = s := rfl

lemma formatMigrationFile_ok_concat (exec : String → Option (Option (List String)))
    (file : String) (parts : List FilePart)
    (h : formatMigrationFile exec file = .ok parts) :
    String.join (parts.map FilePart.text) = file := by
  cases hex : exec file with
  | none => rw [formatMigrationFile, hex] at h; exact absurd h (by simp)
  | some g =>
    cases g with
    | none => rw [formatMigrationFile, hex] at h; exact absurd h (by simp)
    | some gs =>
      simp only [formatMigrationFile, hex] at h
      split at h
      case isFalse => exact absurd h (by simp)
      injection h with h'
      subst h'
      rw [List.map_map]
      have : (FilePart.text ∘ fun t =>
          ({ text := String.mk t,
             highlight := (gs.filter (fun x => x.length > 1)).contains (String.mk t) } : FilePart))
          = String.mk := rfl
      rw [this, string_join_map_mk, flatten_jsSplitOnGroup, string_mk_toList]

/-- Claim C3: for every path accepted by the legacy pattern (so that
`formatMigrationFile` returns a `FilePart` list instead of throwing),
concatenating the `text` fields of the returned parts in order reproduces
the input path exactly. -/
theorem formatMigrationFile_concat_original :
    ∀ (folder file : String) (parts : List FilePart),
      formatMigrationFile (legacyExec folder) file = .ok parts →
      String.join (parts.map FilePart.text) = file :=
  fun _ file parts h => formatMigrationFile_ok_concat _ file parts h

/-- Claim C3 witness: the concrete legacy path
`"cypress/integration/foo.spec.js"` splits into five parts whose texts
concatenate back to the path. -/
theorem formatMigrationFile_concat_original_witness :
    formatMigrationFile (legacyExec "integration") "cypress/integration/foo.spec.js"
      = .ok [⟨"cypress/", false⟩, ⟨"integration", true⟩, ⟨"/foo", false⟩,
             ⟨".spec.", true⟩, ⟨"js", false⟩] ∧
    String.join ([⟨"cypress/", false⟩, ⟨"integration", true⟩, ⟨"/foo", false⟩,
             ⟨".spec.", true⟩, ⟨"js", false⟩].map FilePart.text)
      = "cypress/integration/foo.spec.js" :=
  ⟨by decide,
   formatMigrationFile_concat_original "integration" "cypress/integration/foo.spec.js"
     [⟨"cypress/", false⟩, ⟨"integration", true⟩, ⟨"/foo", false⟩,
      ⟨".spec.", true⟩, ⟨"js", false⟩] (by decide)⟩

/-- Claim C1: `renameSpecPath` maps the two concrete legacy paths as
specified. -/
theorem renameSpecPath_legacy_examples :
    renameSpecPath "cypress/integration/foo.spec.js" = "cypress/e2e/foo.cy.js" ∧
    renameSpecPath "cypress/integration/foo_spec.ts" = "cypress/e2e/foo.cy.ts" := by
  refine ⟨by decide, by decide⟩

/-!
### The `NonSpecFileError` guard of `formatMigrationFile` (C8)
-/

/-- Claim C8 counterexample: on `"cypress/integration/foo.spec)js"` the
legacy pattern matches with groups `dir = "integration"` and
`ext = ".spec)"`, yet `formatMigrationFile` does not return a `FilePart`
list — the constructed split pattern `(integration|.spec))` is an invalid
regex source, so the `RegExp` constructor's SyntaxError propagates instead
of a `NonSpecFileError` or a result. -/
theorem formatMigrationFile_invalidRegex_counterexample :
    legacyExec "integration" "cypress/integration/foo.spec)js"
      = some (some ["integration", ".spec)"]) ∧
    validRegexSource "(integration|.spec))" = false ∧
    formatMigrationFile (legacyExec "integration") "cypress/integration/foo.spec)js"
      = .error (.invalidRegex "(integration|.spec))") := by
  refine ⟨by decide, by decide, by decide⟩

/-- Claim C8 (amended): `formatMigrationFile` throws a `NonSpecFileError`
exactly when the pattern fails to match or the match lacks named capture
groups (e.g. the already-migrated path `"cypress/e2e/foo.cy.js"` against
the legacy pattern); when the pattern matches with its named groups it
never throws a `NonSpecFileError`, and it returns a `FilePart` list exactly
when the split pattern `(${delimiters})` built from the captured values is
a valid regex source — otherwise the `RegExp` constructor's SyntaxError
propagates. -/
theorem formatMigrationFile_nonSpecFileError_iff :
    (∀ (exec : String → Option (Option (List String))) (file : String),
      ((∃ e, formatMigrationFile exec file = .error (.nonSpecFile e)) ↔
        (exec file = none ∨ exec file = some none)) ∧
      (∀ gs, exec file = some (some gs) →
        (∃ parts, formatMigrationFile exec file = .ok parts) ∨
        (∃ p, formatMigrationFile exec file = .error (.invalidRegex p))) ∧
      (∀ gs, exec file = some (some gs) →
        (validRegexSource ("(" ++ String.intercalate "|"
            (gs.filter (fun x => x.length > 1)) ++ ")") = true ↔
          ∃ parts, formatMigrationFile exec file = .ok parts))) ∧
    formatMigrationFile (legacyExec "integration") "cypress/e2e/foo.cy.js"
      = .error (.nonSpecFile ⟨nonSpecMessage "cypress/e2e/foo.cy.js"⟩) := by
  constructor
  · intro exec file
    have hval : ∀ gs, exec file = some (some gs) →
        (validRegexSource ("(" ++ String.intercalate "|"
            (gs.filter (fun x => x.length > 1)) ++ ")") = true ↔
          ∃ parts, formatMigrationFile exec file = .ok parts) := by
      intro gs hgs
      constructor
      · intro hv
        simp only [formatMigrationFile, hgs]
        rw [if_pos hv]
        exact ⟨_, rfl⟩
      · rintro ⟨parts, hp⟩
        by_cases hv : validRegexSource ("(" ++ String.intercalate "|"
            (gs.filter (fun x => x.length > 1)) ++ ")") = true
        · exact hv
        · simp only [formatMigrationFile, hgs] at hp
          rw [if_neg hv] at hp
          exact absurd hp (by simp)
    have hdisj : ∀ gs, exec file = some (some gs) →
        (∃ parts, formatMigrationFile exec file = .ok parts) ∨
        (∃ p, formatMigrationFile exec file = .error (.invalidRegex p)) := by
      intro gs hgs
      by_cases hv : validRegexSource ("(" ++ String.intercalate "|"
          (gs.filter (fun x => x.length > 1)) ++ ")") = true
      · exact Or.inl ((hval gs hgs).mp hv)
      · refine Or.inr ⟨"(" ++ String.intercalate "|"
          (gs.filter (fun x => x.length > 1)) ++ ")", ?_⟩
        simp only [formatMigrationFile, hgs]
        rw [if_neg hv]
    refine ⟨?_, hdisj, hval⟩
    constructor
    · rintro ⟨e, he⟩
      cases hex : exec file with
      | none => exact Or.inl rfl
      | some g =>
        cases g with
        | none => exact Or.inr rfl
        | some gs =>
          simp only [formatMigrationFile, hex] at he
          split at he
          · exact absurd he (by simp)
          · exact absurd he (by simp)
    · rintro (hex | hex)
      · exact ⟨⟨nonSpecMessage file⟩, by simp only [formatMigrationFile, hex]⟩
      · exact ⟨⟨nonSpecMessage file⟩, by simp only [formatMigrationFile, hex]⟩
  · decide

/-- Claim C8 (amended) witness: the legacy pattern matches
`"cypress/integration/foo.spec.js"` with groups `dir` and `ext`, the
constructed split pattern is a valid regex source, and
`formatMigrationFile` returns a `FilePart` list there. -/
theorem formatMigrationFile_nonSpecFileError_iff_witness :
    legacyExec "integration" "cypress/integration/foo.spec.js"
      = some (some ["integration", ".spec."]) ∧
    validRegexSource ("(" ++ String.intercalate "|"
        ((["integration", ".spec."] : List String).filter (fun x => x.length > 1))
      ++ ")") = true ∧
    ∃ parts, formatMigrationFile (legacyExec "integration")
      "cypress/integration/foo.spec.js" = .ok parts :=
  ⟨by decide, by decide,
   ((formatMigrationFile_nonSpecFileError_iff.1 (legacyExec "integration")
     "cypress/integration/foo.spec.js").2.2 ["integration", ".spec."]
     (by decide)).mp (by decide)⟩

/-!
### `getSpecs` (C7)
-/

lemma findByTestingType_mem_tags (listFiles : String → String → List String)
    (cwd : String) (dir : Option String) (tt : TestingType)
    (x : RelativeSpecWithTestingType)
    (hx : x ∈ findByTestingType listFiles cwd dir tt) : x.testingType = tt := by
  cases dir with
  | none => simp [findByTestingType] at hx
  | some d =>
    rw [findByTestingType] at hx
    by_cases hd : d = ""
    · rw [if_pos hd] at hx; simp at hx
    · rw [if_neg hd] at hx
      obtain ⟨r, -, rfl⟩ := List.mem_map.mp hx
      rfl

/-- Claim C7: in `getSpecs`, a `null` directory contributes no entries for
its testing type; `before` is all component-tagged entries followed by all
e2e-tagged entries; and `after` has the same length as `before` with, at
every index, the same testing type and a relative path equal to
`renameSpecPath` of the corresponding `before` entry's relative path. -/
theorem getSpecs_before_after_structure :
    ∀ (listFiles : String → String → List String) (root : String)
      (compDir e2eDir : Option String),
      (compDir = none →
        ∀ x ∈ (getSpecs listFiles root compDir e2eDir).before,
          x.testingType = TestingType.e2e) ∧
      (e2eDir = none →
        ∀ x ∈ (getSpecs listFiles root compDir e2eDir).before,
          x.testingType = TestingType.component) ∧
      (∃ cs es, (getSpecs listFiles root compDir e2eDir).before = cs ++ es ∧
        (∀ x ∈ cs, x.testingType = TestingType.component) ∧
        (∀ x ∈ es, x.testingType = TestingType.e2e)) ∧
      (getSpecs listFiles root compDir e2eDir).after.length
        = (getSpecs listFiles root compDir e2eDir).before.length ∧
      (∀ i, i < (getSpecs listFiles root compDir e2eDir).before.length →
        ((getSpecs listFiles root compDir e2eDir).after.getD i
            ⟨TestingType.e2e, ""⟩).testingType
          = ((getSpecs listFiles root compDir e2eDir).before.getD i
            ⟨TestingType.e2e, ""⟩).testingType ∧
        ((getSpecs listFiles root compDir e2eDir).after.getD i
            ⟨TestingType.e2e, ""⟩).relative
          = renameSpecPath (((getSpecs listFiles root compDir e2eDir).before.getD i
            ⟨TestingType.e2e, ""⟩).relative)) := by
  intro lf root compDir e2eDir
  have hb : (getSpecs lf root compDir e2eDir).before
      = findByTestingType lf root compDir .component
        ++ findByTestingType lf root e2eDir .e2e := rfl
  have ha : (getSpecs lf root compDir e2eDir).after
      = (getSpecs lf root compDir e2eDir).before.map
          (fun x => ⟨x.testingType, renameSpecPath x.relative⟩) := rfl
  refine ⟨?_, ?_, ?_, ?_, ?_⟩
  · intro h x hx
    rw [hb, h] at hx
    rw [show findByTestingType lf root none TestingType.component = [] from rfl,
      List.nil_append] at hx
    exact findByTestingType_mem_tags _ _ _ _ _ hx
  · intro h x hx
    rw [hb, h] at hx
    rw [show findByTestingType lf root none TestingType.e2e = [] from rfl,
      List.append_nil] at hx
    exact findByTestingType_mem_tags _ _ _ _ _ hx
  · exact ⟨_, _, hb, fun x hx => findByTestingType_mem_tags _ _ _ _ _ hx,
      fun x hx => findByTestingType_mem_tags _ _ _ _ _ hx⟩
  · rw [ha, List.length_map]
  · intro i hi
    rw [ha, List.getD_eq_getElem?_getD, List.getElem?_map,
      List.getElem?_eq_getElem hi, List.getD_eq_getElem?_getD,
      List.getElem?_eq_getElem hi]
    exact ⟨rfl, rfl⟩

/-- Claim C7 witness: with a listing function returning one file, a `null`
component directory and a present e2e directory, the structure theorem
applies at index 0. -/
theorem getSpecs_before_after_structure_witness :
    (0 < (getSpecs (fun _ _ => ["foo.spec.js"]) "root" none
        (some "cypress/e2e")).before.length) ∧
    ((getSpecs (fun _ _ => ["foo.spec.js"]) "root" none
        (some "cypress/e2e")).after.getD 0 ⟨TestingType.e2e, ""⟩).relative
      = renameSpecPath (((getSpecs (fun _ _ => ["foo.spec.js"]) "root" none
        (some "cypress/e2e")).before.getD 0 ⟨TestingType.e2e, ""⟩).relative) :=
  ⟨by decide,
   ((getSpecs_before_after_structure (fun _ _ => ["foo.spec.js"]) "root" none
     (some "cypress/e2e")).2.2.2.2 0 (by decide)).2⟩

/-!
### The config reducer (C4, C5)
-/

/-- Claim C4: `reduceConfig` processes every input key by the stated rules —
`pluginsFile`, `$schema` and `componentFolder` are dropped; `e2e` and
`component` are shallow-merged into the same-named bucket; `testFiles` is
copied into both `e2e.specPattern` and `component.specPattern`; `baseUrl` is
copied into `e2e.baseUrl`; every other key is copied into the `global`
bucket under the same key — and on the spec's example input it produces
`global = {}`, `e2e = { baseUrl, specPattern }`,
`component = { specPattern, supportFile }`. -/
theorem reduceConfig_key_rules :
    (∀ cfg, reduceConfig cfg = cfg.foldl reduceStep ⟨[], [], []⟩) ∧
    (∀ acc v, reduceStep acc ("pluginsFile", v) = acc) ∧
    (∀ acc v, reduceStep acc ("$schema", v) = acc) ∧
    (∀ acc v, reduceStep acc ("componentFolder", v) = acc) ∧
    (∀ acc v, reduceStep acc ("e2e", v)
      = { acc with e2e := mergeObj acc.e2e (jsSpread v) }) ∧
    (∀ acc v, reduceStep acc ("component", v)
      = { acc with component := mergeObj acc.component (jsSpread v) }) ∧
    (∀ acc v, reduceStep acc ("testFiles", v)
      = { acc with e2e := setKey acc.e2e "specPattern" v,
                   component := setKey acc.component "specPattern" v }) ∧
    (∀ acc v, reduceStep acc ("baseUrl", v)
      = { acc with e2e := setKey acc.e2e "baseUrl" v }) ∧
    (∀ acc (k : String) v, k ∉ excludedFields → k ≠ "e2e" → k ≠ "component" →
      k ≠ "testFiles" → k ≠ "baseUrl" →
      reduceStep acc (k, v) = { acc with global := setKey acc.global k v }) ∧
    reduceConfig [("baseUrl", .str "http://x"), ("testFiles", .str "**/*.ts"),
        ("component", .obj [("supportFile", .boolean false)])]
      = ⟨[], [("baseUrl", .str "http://x"), ("specPattern", .str "**/*.ts")],
         [("specPattern", .str "**/*.ts"), ("supportFile", .boolean false)]⟩ := by
  refine ⟨fun _ => rfl, fun _ _ => rfl, fun _ _ => rfl, fun _ _ => rfl,
    fun _ _ => rfl, fun _ _ => rfl, fun _ _ => rfl, fun _ _ => rfl, ?_, rfl⟩
  intro acc k v h1 h2 h3 h4 h5
  rw [reduceStep, if_neg h1, if_neg h2, if_neg h3, if_neg h4, if_neg h5]

/-- Claim C4 witness: a generic key such as `viewportWidth` lands in the
`global` bucket under the same name. -/
theorem reduceConfig_key_rules_witness :
    ("viewportWidth" ∉ excludedFields) ∧
    reduceStep ⟨[], [], []⟩ ("viewportWidth", JsVal.num 800)
      = ⟨[("viewportWidth", JsVal.num 800)], [], []⟩ := by
  refine ⟨by decide, ?_⟩
  have h := reduceConfig_key_rules.2.2.2.2.2.2.2.2.1 ⟨[], [], []⟩ "viewportWidth"
    (JsVal.num 800) (by decide) (by decide) (by decide) (by decide) (by decide)
  exact h.trans rfl

lemma keysOf_setKey (o : JsObj) (k : String) (v : JsVal) :
    ∀ k', k' ∈ keysOf (setKey o k v) → k' ∈ keysOf o ∨ k' = k := by
  intro k' h
  rw [setKey] at h
  split at h
  · rw [keysOf, List.map_map] at h
    obtain ⟨q, hq, hk⟩ := List.mem_map.mp h
    simp only [Function.comp] at hk
    by_cases hqk : q.1 = k
    · right; rw [if_pos hqk] at hk; exact hk.symm
    · left; rw [if_neg hqk] at hk; exact List.mem_map.mpr ⟨q, hq, hk⟩
  · rw [keysOf, List.map_append] at h
    rcases List.mem_append.mp h with h | h
    · left; exact h
    · right; simpa using h

lemma reduceStep_cases (acc : ConfigOptions) (kv : String × JsVal)
    (ht : kv.1 ≠ "testFiles") (he : kv.1 ≠ "e2e") (hc : kv.1 ≠ "component") :
    reduceStep acc kv = acc ∨
    (kv.1 = "baseUrl" ∧ reduceStep acc kv
      = { acc with e2e := setKey acc.e2e "baseUrl" kv.2 }) ∨
    (kv.1 ≠ "baseUrl" ∧ reduceStep acc kv
      = { acc with global := setKey acc.global kv.1 kv.2 }) := by
  rw [reduceStep]
  by_cases h0 : kv.1 ∈ excludedFields
  · rw [if_pos h0]; exact Or.inl rfl
  · rw [if_neg h0, if_neg he, if_neg hc, if_neg ht]
    by_cases hb : kv.1 = "baseUrl"
    · rw [if_pos hb]; exact Or.inr (Or.inl ⟨hb, rfl⟩)
    · rw [if_neg hb]; exact Or.inr (Or.inr ⟨hb, rfl⟩)

lemma reduceConfig_fold_inv :
    ∀ (cfg : JsObj) (acc : ConfigOptions),
      (∀ kv ∈ cfg, kv.1 ≠ "testFiles" ∧ kv.1 ≠ "e2e" ∧ kv.1 ≠ "component") →
      acc.component = [] →
      (∀ k ∈ keysOf acc.e2e, k = "baseUrl") →
      "baseUrl" ∉ keysOf acc.global →
      (cfg.foldl reduceStep acc).component = [] ∧
      (∀ k ∈ keysOf (cfg.foldl reduceStep acc).e2e, k = "baseUrl") ∧
      "baseUrl" ∉ keysOf (cfg.foldl reduceStep acc).global := by
  intro cfg
  induction cfg with
  | nil => intro acc _ h1 h2 h3; exact ⟨h1, h2, h3⟩
  | cons kv cfg ih =>
    intro acc hspec h1 h2 h3
    obtain ⟨ht, he, hc⟩ := hspec kv (List.mem_cons_self ..)
    rw [List.foldl_cons]
    have hspec' : ∀ p ∈ cfg, p.1 ≠ "testFiles" ∧ p.1 ≠ "e2e" ∧ p.1 ≠ "component" :=
      fun p hp => hspec p (List.mem_cons_of_mem _ hp)
    rcases reduceStep_cases acc kv ht he hc with hstep | ⟨hb, hstep⟩ | ⟨hb, hstep⟩
    · rw [hstep]; exact ih acc hspec' h1 h2 h3
    · rw [hstep]
      refine ih _ hspec' h1 ?_ h3
      intro k hk
      rcases keysOf_setKey acc.e2e "baseUrl" kv.2 k hk with hk' | hk'
      · exact h2 k hk'
      · exact hk'
    · rw [hstep]
      refine ih _ hspec' h1 h2 ?_
      intro hk
      rcases keysOf_setKey acc.global kv.1 kv.2 "baseUrl" hk with hk' | hk'
      · exact h3 hk'
      · exact hb hk'.symm

/-- Claim C5 counterexample: a `testFiles` input key puts `specPattern`
into both the `e2e` and the `component` bucket, so the buckets of
`reduceConfig` are not pairwise disjoint. -/
theorem reduceConfig_buckets_overlap_counterexample :
    "specPattern" ∈ keysOf (reduceConfig [("testFiles", JsVal.str "**/*.ts")]).e2e ∧
    "specPattern" ∈ keysOf (reduceConfig [("testFiles", JsVal.str "**/*.ts")]).component := by
  refine ⟨by decide, by decide⟩

/-- Claim C5 (amended): the buckets of `reduceConfig` need not be pairwise
disjoint (the `testFiles` fan-out and the nested `e2e`/`component` objects
can duplicate keys); for every input configuration containing none of the
keys `testFiles`, `e2e` and `component`, the three buckets do have pairwise
disjoint key sets. -/
theorem reduceConfig_buckets_disjoint_without_fanout :
    ∀ cfg : JsObj,
      "testFiles" ∉ keysOf cfg → "e2e" ∉ keysOf cfg → "component" ∉ keysOf cfg →
      (∀ k, k ∈ keysOf (reduceConfig cfg).global →
        k ∈ keysOf (reduceConfig cfg).e2e → False) ∧
      (∀ k, k ∈ keysOf (reduceConfig cfg).global →
        k ∈ keysOf (reduceConfig cfg).component → False) ∧
      (∀ k, k ∈ keysOf (reduceConfig cfg).e2e →
        k ∈ keysOf (reduceConfig cfg).component → False) := by
  intro cfg h1 h2 h3
  have hspec : ∀ kv ∈ cfg, kv.1 ≠ "testFiles" ∧ kv.1 ≠ "e2e" ∧ kv.1 ≠ "component" := by
    intro kv hkv
    refine ⟨fun hh => h1 ?_, fun hh => h2 ?_, fun hh => h3 ?_⟩ <;>
      exact List.mem_map.mpr ⟨kv, hkv, hh⟩
  obtain ⟨hcomp, he2e, hglob⟩ :=
    reduceConfig_fold_inv cfg ⟨[], [], []⟩ hspec rfl (by simp [keysOf]) (by simp [keysOf])
  have hcomp' : (reduceConfig cfg).component = [] := hcomp
  refine ⟨?_, ?_, ?_⟩
  · intro k hkg hke
    have hkb : k = "baseUrl" := he2e k hke
    subst hkb
    exact hglob hkg
  · intro k _ hkc
    rw [hcomp'] at hkc
    simp [keysOf] at hkc
  · intro k _ hkc
    rw [hcomp'] at hkc
    simp [keysOf] at hkc

/-- Claim C5 (amended) witness: a configuration with only `baseUrl` and a
generic key has pairwise disjoint buckets. -/
theorem reduceConfig_buckets_disjoint_without_fanout_witness :
    "testFiles" ∉ keysOf [("baseUrl", JsVal.str "http://x"), ("foo", JsVal.num 1)] ∧
    (∀ k, k ∈ keysOf (reduceConfig
        [("baseUrl", JsVal.str "http://x"), ("foo", JsVal.num 1)]).global →
      k ∈ keysOf (reduceConfig
        [("baseUrl", JsVal.str "http://x"), ("foo", JsVal.num 1)]).e2e → False) :=
  ⟨by decide,
   (reduceConfig_buckets_disjoint_without_fanout
     [("baseUrl", JsVal.str "http://x"), ("foo", JsVal.num 1)]
     (by decide) (by decide) (by decide)).1⟩

/-!
### The config renderer (C6)
-/

lemma strContains_of_decomp (s t pre post : String) (h : s = pre ++ t ++ post) :
    StrContains s t := by
  rw [StrContains, h]
  exact ⟨pre.toList, post.toList, by simp [String.toList]⟩

lemma typeSection_nonempty (formatObject : JsObj → Nat → String) (tt pp : String)
    (opts : JsObj) (h : opts ≠ []) :
    typeSection formatObject tt pp opts
      = ("\n  " ++ tt ++ ": \x7b\n    ") ++ setupHookText pp
        ++ ("\n    \x7d,\n    " ++ formatObject opts 4 ++ "\n  \x7d,") := by
  rw [typeSection, if_pos (List.length_pos.mpr h), createTestingTypeTemplate]
  simp only [String.append_assoc]

/-- Claim C6 counterexample: with `pluginsFile` given as the empty string
(a given but falsy value), the resolved plugin path is the default path,
not the given value — the emitted `e2e` block requires
`/cypress/plugins/index.js` and not `''`. -/
theorem getPluginRelativePath_empty_pluginsFile_counterexample :
    getPluginRelativePath
        [("pluginsFile", JsVal.str ""), ("e2e", JsVal.obj [("x", JsVal.boolean true)])]
      = "/cypress/plugins/index.js" ∧
    (reduceConfig
        [("pluginsFile", JsVal.str ""), ("e2e", JsVal.obj [("x", JsVal.boolean true)])]).e2e
      = [("x", JsVal.boolean true)] ∧
    ¬ StrContains (createConfigString (fun _ _ => "")
        [("pluginsFile", JsVal.str ""), ("e2e", JsVal.obj [("x", JsVal.boolean true)])])
      (setupHookText "") ∧
    StrContains (createConfigString (fun _ _ => "")
        [("pluginsFile", JsVal.str ""), ("e2e", JsVal.obj [("x", JsVal.boolean true)])])
      (setupHookText "/cypress/plugins/index.js") := by
  refine ⟨by decide, rfl, by decide, by decide⟩

/-- Claim C6 (amended): `createConfigString` emits no `e2e` (respectively
`component`) section when that bucket is empty after reduction; whenever a
bucket is non-empty, the output contains a `setupNodeEvents` hook requiring
the resolved plugin path; and the resolved plugin path is the input's
`pluginsFile` value when it is given and truthy, the fixed default
`/cypress/plugins/index.js` otherwise (absent or falsy, e.g. the empty
string). -/
theorem createConfigString_blocks_and_plugin_path :
    ∀ (formatObject : JsObj → Nat → String) (cfg : JsObj),
      ((reduceConfig cfg).e2e = [] →
        typeSection formatObject "e2e" (getPluginRelativePath cfg)
          (reduceConfig cfg).e2e = "") ∧
      ((reduceConfig cfg).component = [] →
        typeSection formatObject "component" (getPluginRelativePath cfg)
          (reduceConfig cfg).component = "") ∧
      createConfigString formatObject cfg
        = configHeader ++ globalSection formatObject (reduceConfig cfg)
          ++ typeSection formatObject "e2e" (getPluginRelativePath cfg)
            (reduceConfig cfg).e2e
          ++ typeSection formatObject "component" (getPluginRelativePath cfg)
            (reduceConfig cfg).component
          ++ configFooter ∧
      ((reduceConfig cfg).e2e ≠ [] →
        StrContains (createConfigString formatObject cfg)
          (setupHookText (getPluginRelativePath cfg))) ∧
      ((reduceConfig cfg).component ≠ [] →
        StrContains (createConfigString formatObject cfg)
          (setupHookText (getPluginRelativePath cfg))) ∧
      (getKey cfg "pluginsFile" = none →
        getPluginRelativePath cfg = DEFAULT_PLUGIN_PATH) ∧
      (∀ v, getKey cfg "pluginsFile" = some v → truthy v = false →
        getPluginRelativePath cfg = DEFAULT_PLUGIN_PATH) ∧
      (∀ v, getKey cfg "pluginsFile" = some v → truthy v = true →
        getPluginRelativePath cfg = jsToString v) := by
  intro f cfg
  refine ⟨?_, ?_, rfl, ?_, ?_, ?_, ?_, ?_⟩
  · intro h; rw [h]; rfl
  · intro h; rw [h]; rfl
  · intro hne
    apply strContains_of_decomp _ _
      (configHeader ++ globalSection f (reduceConfig cfg)
        ++ ("\n  " ++ "e2e" ++ ": \x7b\n    "))
      ("\n    \x7d,\n    " ++ f (reduceConfig cfg).e2e 4 ++ "\n  \x7d,"
        ++ typeSection f "component" (getPluginRelativePath cfg)
          (reduceConfig cfg).component
        ++ configFooter)
    rw [createConfigString, createCypressConfigJs,
      typeSection_nonempty f "e2e" _ _ hne]
    simp only [String.append_assoc]
  · intro hne
    apply strContains_of_decomp _ _
      (configHeader ++ globalSection f (reduceConfig cfg)
        ++ typeSection f "e2e" (getPluginRelativePath cfg) (reduceConfig cfg).e2e
        ++ ("\n  " ++ "component" ++ ": \x7b\n    "))
      ("\n    \x7d,\n    " ++ f (reduceConfig cfg).component 4 ++ "\n  \x7d,"
        ++ configFooter)
    rw [createConfigString, createCypressConfigJs,
      typeSection_nonempty f "component" _ _ hne]
    simp only [String.append_assoc]
  · intro h; rw [getPluginRelativePath, h]
  · intro v h hf
    rw [getPluginRelativePath, h]
    show (if truthy v = true then jsToString v else DEFAULT_PLUGIN_PATH) = DEFAULT_PLUGIN_PATH
    rw [hf]
    simp
  · intro v h hf
    rw [getPluginRelativePath, h]
    show (if truthy v = true then jsToString v else DEFAULT_PLUGIN_PATH) = jsToString v
    rw [hf]
    simp

/-- Claim C6 (amended) witness: a configuration with a non-empty `e2e`
bucket produces an output containing the hook that requires the resolved
plugin path. -/
theorem createConfigString_blocks_and_plugin_path_witness :
    (reduceConfig [("e2e", JsVal.obj [("x", JsVal.boolean true)])]).e2e ≠ [] ∧
    StrContains
      (createConfigString (fun _ _ => "") [("e2e", JsVal.obj [("x", JsVal.boolean true)])])
      (setupHookText (getPluginRelativePath [("e2e", JsVal.obj [("x", JsVal.boolean true)])])) :=
  ⟨by rw [show (reduceConfig [("e2e", JsVal.obj [("x", JsVal.boolean true)])]).e2e
        = [("x", JsVal.boolean true)] from rfl]
      exact List.cons_ne_nil _ _,
   (createConfigString_blocks_and_plugin_path (fun _ _ => "")
     [("e2e", JsVal.obj [("x", JsVal.boolean true)])]).2.2.2.1
     (by rw [show (reduceConfig [("e2e", JsVal.obj [("x", JsVal.boolean true)])]).e2e
           = [("x", JsVal.boolean true)] from rfl]
         exact List.cons_ne_nil _ _)⟩

/-!
### `moveSpecFiles` failure semantics (C9)
-/

lemma moveSync_ok_spec (fs : Fs) (s d : String) (fs1 : Fs)
    (h : moveSync fs s d = .ok fs1) :
    (fs s).isSome = true ∧ fs d = none ∧
    ∀ p, fs1 p = if p = d then fs s else if p = s then none else fs p := by
  rw [moveSync] at h
  cases hfs : fs s with
  | none => rw [hfs] at h; exact absurd h (by simp)
  | some c =>
    rw [hfs] at h
    cases hfd : fs d with
    | some c2 => rw [hfd] at h; exact absurd h (by simp)
    | none =>
      rw [hfd] at h
      injection h with h1
      refine ⟨rfl, rfl, ?_⟩
      intro p
      rw [← h1]

lemma runMoves_failure_decomp :
    ∀ (ms : List (String × String)) (fs : Fs) (e : FsError),
      (runMoves fs ms).2 = some e →
      ∃ k, k < ms.length ∧
        (runMoves fs (ms.take k)).2 = none ∧
        (runMoves fs ms).1 = (runMoves fs (ms.take k)).1 ∧
        moveSync (runMoves fs (ms.take k)).1 (ms.getD k ("", "")).1
          (ms.getD k ("", "")).2 = .error e := by
  intro ms
  induction ms with
  | nil => intro fs e h; rw [runMoves] at h; exact absurd h (by simp)
  | cons sd rest ih =>
    obtain ⟨s, d⟩ := sd
    intro fs e h
    cases hm : moveSync fs s d with
    | ok fs1 =>
      simp only [runMoves, hm] at h
      obtain ⟨k, hk, h1, h2, h3⟩ := ih fs1 e h
      refine ⟨k + 1, by simpa using Nat.succ_lt_succ hk, ?_, ?_, ?_⟩
      · rw [List.take_succ_cons]
        simp only [runMoves, hm]
        exact h1
      · rw [List.take_succ_cons]
        simp only [runMoves, hm]
        exact h2
      · rw [List.take_succ_cons, List.getD_cons_succ]
        simp only [runMoves, hm]
        exact h3
    | error e' =>
      simp only [runMoves, hm] at h
      have he : e' = e := by injection h
      refine ⟨0, by simp, by simp [runMoves], by simp [runMoves, hm], ?_⟩
      rw [List.take_zero, List.getD_cons_zero]
      show moveSync (runMoves fs []).1 s d = .error e
      rw [show (runMoves fs []).1 = fs from rfl, hm, he]

lemma runMoves_frame :
    ∀ (ms : List (String × String)) (fs : Fs) (p : String),
      (runMoves fs ms).2 = none →
      (fs p).isSome = true →
      p ∉ ms.map Prod.fst →
      (runMoves fs ms).1 p = fs p := by
  intro ms
  induction ms with
  | nil => intro fs p _ _ _; rfl
  | cons sd rest ih =>
    obtain ⟨s, d⟩ := sd
    intro fs p hrun hocc hnot
    cases hm : moveSync fs s d with
    | error e' => simp only [runMoves, hm] at hrun; exact absurd hrun (by simp)
    | ok fs1 =>
      simp only [runMoves, hm] at hrun ⊢
      obtain ⟨hs_some, hd_none, hfs1⟩ := moveSync_ok_spec fs s d fs1 hm
      have hps : p ≠ s := by
        intro hh
        exact hnot (by simp [hh])
      have hpd : p ≠ d := by
        intro hh
        rw [hh, hd_none] at hocc
        exact absurd hocc (by simp)
      have hfs1p : fs1 p = fs p := by
        rw [hfs1 p, if_neg hpd, if_neg hps]
      have hocc1 : (fs1 p).isSome = true := by rw [hfs1p]; exact hocc
      have hnot1 : p ∉ rest.map Prod.fst := fun hh => hnot (by simp [hh])
      rw [ih fs1 p hrun hocc1 hnot1]
      exact hfs1p

lemma runMoves_success_moved :
    ∀ (ms : List (String × String)) (fs : Fs),
      (runMoves fs ms).2 = none →
      (ms.map Prod.fst).Nodup →
      (∀ q ∈ ms.map Prod.fst, (fs q).isSome = true) →
      ∀ i, i < ms.length →
        (runMoves fs ms).1 ((ms.getD i ("", "")).2) = fs ((ms.getD i ("", "")).1) := by
  intro ms
  induction ms with
  | nil => intro fs _ _ _ i hi; exact absurd hi (by simp)
  | cons sd rest ih =>
    obtain ⟨s, d⟩ := sd
    intro fs hrun hnd hex i hi
    cases hm : moveSync fs s d with
    | error e' => simp only [runMoves, hm] at hrun; exact absurd hrun (by simp)
    | ok fs1 =>
      simp only [runMoves, hm] at hrun ⊢
      obtain ⟨hs_some, hd_none, hfs1⟩ := moveSync_ok_spec fs s d fs1 hm
      have hnd' : (rest.map Prod.fst).Nodup := by
        rw [List.map_cons] at hnd
        exact (List.nodup_cons.mp hnd).2
      have hs_not : s ∉ rest.map Prod.fst := by
        rw [List.map_cons] at hnd
        exact (List.nodup_cons.mp hnd).1
      have hsrc_pres : ∀ q ∈ rest.map Prod.fst, fs1 q = fs q := by
        intro q hq
        have hqfs : (fs q).isSome = true := hex q (by simp [hq])
        have hqs : q ≠ s := fun hh => hs_not (hh ▸ hq)
        have hqd : q ≠ d := by
          intro hh
          rw [hh, hd_none] at hqfs
          exact absurd hqfs (by simp)
        rw [hfs1 q, if_neg hqd, if_neg hqs]
      have hrest_ex : ∀ q ∈ rest.map Prod.fst, (fs1 q).isSome = true := by
        intro q hq
        rw [hsrc_pres q hq]
        exact hex q (by simp [hq])
      match i with
      | 0 =>
        rw [List.getD_cons_zero]
        have hd1 : fs1 d = fs s := by rw [hfs1 d, if_pos rfl]
        have hocc : (fs1 d).isSome = true := by rw [hd1]; exact hs_some
        have hdnotin : d ∉ rest.map Prod.fst := by
          intro hmem
          have hds := hex d (by simp [hmem])
          rw [hd_none] at hds
          exact absurd hds (by simp)
        rw [runMoves_frame rest fs1 d hrun hocc hdnotin]
        exact hd1
      | i + 1 =>
        rw [List.getD_cons_succ]
        have hi' : i < rest.length := by simpa using hi
        have hmem : (rest.getD i ("", "")).1 ∈ rest.map Prod.fst := by
          rw [List.getD_eq_getElem?_getD, List.getElem?_eq_getElem hi']
          exact List.mem_map.mpr ⟨rest[i], List.getElem_mem hi', rfl⟩
        rw [ih fs1 hrun hnd' hrest_ex i hi']
        exact hsrc_pres _ hmem

lemma pathJoin_injective (dir : String) :
    Function.Injective (pathJoin dir) := by
  intro a b hab
  have hd := congrArg String.data hab
  rw [pathJoin, pathJoin] at hd
  simp only [String.data_append] at hd
  rw [List.append_assoc, List.append_assoc] at hd
  have h4 : "/".data ++ a.data = "/".data ++ b.data := List.append_cancel_left hd
  have h5 : a.data = b.data := List.append_cancel_left h4
  exact String.ext h5

/-- Claim C9: `moveSpecFiles` renames the listed files of the directory one
at a time in listing order; if a rename fails after `k` successes, the final
filesystem is exactly the state after those first `k` renames (each moved
file sits at its renamed target path with its original content), the `k`-th
planned move fails on that state with the very error that propagates, no
further rename is attempted, and every remaining file is untouched at its
original path. -/
theorem moveSpecFiles_sequential_failure :
    ∀ (fs : Fs) (dir : String) (names : List String) (e : FsError),
      names.Nodup →
      (moveSpecFiles fs dir names).2 = some e →
      ∃ k, k < (plannedMoves fs dir names).length ∧
        (runMoves fs ((plannedMoves fs dir names).take k)).2 = none ∧
        (moveSpecFiles fs dir names).1
          = (runMoves fs ((plannedMoves fs dir names).take k)).1 ∧
        moveSync (moveSpecFiles fs dir names).1
          ((plannedMoves fs dir names).getD k ("", "")).1
          ((plannedMoves fs dir names).getD k ("", "")).2 = .error e ∧
        (∀ i, i < k →
          (moveSpecFiles fs dir names).1
              (((plannedMoves fs dir names).getD i ("", "")).2)
            = fs (((plannedMoves fs dir names).getD i ("", "")).1)) ∧
        (∀ q ∈ ((plannedMoves fs dir names).drop k).map Prod.fst,
          (moveSpecFiles fs dir names).1 q = fs q) := by
  intro fs dir names e hnd hfail
  rw [show moveSpecFiles fs dir names
      = runMoves fs (plannedMoves fs dir names) from rfl] at hfail ⊢
  have hsrcs_eq : (plannedMoves fs dir names).map Prod.fst
      = (getSpecFiles fs dir names).map (pathJoin dir) := by
    rw [plannedMoves, specMoves, List.map_map]
    rfl
  have hnodup_srcs : ((plannedMoves fs dir names).map Prod.fst).Nodup := by
    rw [hsrcs_eq]
    exact (hnd.filter _).map (pathJoin_injective dir)
  have hsrc_ex : ∀ q ∈ (plannedMoves fs dir names).map Prod.fst,
      (fs q).isSome = true := by
    rw [hsrcs_eq]
    intro q hq
    obtain ⟨n, hn, rfl⟩ := List.mem_map.mp hq
    rw [getSpecFiles] at hn
    exact (List.mem_filter.mp hn).2
  obtain ⟨k, hk, htake, hstate, hfailk⟩ :=
    runMoves_failure_decomp (plannedMoves fs dir names) fs e hfail
  have hnd_take : (((plannedMoves fs dir names).take k).map Prod.fst).Nodup := by
    rw [List.map_take]
    exact hnodup_srcs.sublist (List.take_sublist _ _)
  have hex_take : ∀ q ∈ ((plannedMoves fs dir names).take k).map Prod.fst,
      (fs q).isSome = true := by
    intro q hq
    rw [List.map_take] at hq
    exact hsrc_ex q (List.take_subset _ _ hq)
  refine ⟨k, hk, htake, hstate, ?_, ?_, ?_⟩
  · rw [hstate]
    exact hfailk
  · intro i hi
    rw [hstate]
    have hi_len : i < ((plannedMoves fs dir names).take k).length := by
      rw [List.length_take]
      exact Nat.lt_min.mpr ⟨hi, Nat.lt_trans hi hk⟩
    have hres := runMoves_success_moved _ fs htake hnd_take hex_take i hi_len
    have hgd : ((plannedMoves fs dir names).take k).getD i ("", "")
        = (plannedMoves fs dir names).getD i ("", "") := by
      rw [List.getD_eq_getElem?_getD, List.getD_eq_getElem?_getD,
        List.getElem?_take_of_lt hi]
    rw [hgd] at hres
    exact hres
  · intro q hq
    rw [hstate]
    rw [List.map_drop] at hq
    have hqmem : q ∈ (plannedMoves fs dir names).map Prod.fst :=
      List.drop_subset _ _ hq
    have hocc := hsrc_ex q hqmem
    have hnotin : q ∉ ((plannedMoves fs dir names).take k).map Prod.fst := by
      rw [List.map_take]
      intro hIn
      exact List.disjoint_take_drop hnodup_srcs (Nat.le_refl k) hIn hq
    exact runMoves_frame _ fs q htake hocc hnotin

/-- Claim C9 witness: on a directory whose listing is
`["a.spec.js", "b.spec.js", "b.cy.js"]`, the second rename fails because its
destination `d/b.cy.js` already exists; the theorem applies with the first
move done and the rest untouched. -/
theorem moveSpecFiles_sequential_failure_witness :
    (["a.spec.js", "b.spec.js", "b.cy.js"] : List String).Nodup ∧
    (moveSpecFiles
        (fun p => if p = "d/a.spec.js" then some "A"
          else if p = "d/b.spec.js" then some "B"
          else if p = "d/b.cy.js" then some "C" else none)
        "d" ["a.spec.js", "b.spec.js", "b.cy.js"]).2
      = some (.destExists "d/b.cy.js") ∧
    ∃ k, k < (plannedMoves
        (fun p => if p = "d/a.spec.js" then some "A"
          else if p = "d/b.spec.js" then some "B"
          else if p = "d/b.cy.js" then some "C" else none)
        "d" ["a.spec.js", "b.spec.js", "b.cy.js"]).length ∧
      (runMoves
        (fun p => if p = "d/a.spec.js" then some "A"
          else if p = "d/b.spec.js" then some "B"
          else if p = "d/b.cy.js" then some "C" else none)
        ((plannedMoves
          (fun p => if p = "d/a.spec.js" then some "A"
            else if p = "d/b.spec.js" then some "B"
            else if p = "d/b.cy.js" then some "C" else none)
          "d" ["a.spec.js", "b.spec.js", "b.cy.js"]).take k)).2 = none := by
  refine ⟨by decide, by decide, ?_⟩
  obtain ⟨k, hk, htake, -⟩ := moveSpecFiles_sequential_failure
    (fun p => if p = "d/a.spec.js" then some "A"
      else if p = "d/b.spec.js" then some "B"
      else if p = "d/b.cy.js" then some "C" else none)
    "d" ["a.spec.js", "b.spec.js", "b.cy.js"] (.destExists "d/b.cy.js")
    (by decide) (by decide)
  exact ⟨k, hk, htake⟩

/-- Claim C10: `renameSpecPath` is not idempotent — on the already-migrated
path `"cypress/e2e/foo.cy.js"` the bare dot before the script extension
matches the spec-suffix pattern again, so applying the rename to its own
output differs from applying it once. -/
theorem renameSpecPath_not_idempotent :
    renameSpecPath "cypress/e2e/foo.cy.js" = "cypress/e2e/foo.cy.cy.js" ∧
    renameSpecPath (renameSpecPath "cypress/integration/foo.spec.js")
      ≠ renameSpecPath "cypress/integration/foo.spec.js" := by
  refine ⟨by decide, by decide⟩

end CypressMigration
